import Mathlib

/-!
Verification of the hierarchical resource reconciliation engine of
`policy-ansible-for-nsxt/module_utils/nsxt_base_resource.py`.

The Python code manipulates JSON-like data (the Ansible module parameters and
the API responses): dictionaries with string keys, lists, strings, integers,
booleans and `None`.  We embed such data as the inductive type `Value` below
and translate the engine's functions (`check_for_update`,
`_fill_missing_resource_params`, `_extract_resource_params`, `_getAttribute`,
`_get_sub_resources_class_of`, `_wait_till_create`, `_achieve_present_state`,
`_achieve_absent_state`, `realize` / `achieve_subresource_state`) into Lean
functions over it.  Operations that can raise a Python `TypeError` (indexing a
non-dict, `in` on an integer, item assignment on a string, ...) are embedded
in `Except Unit`, so an `Except.error` marks a point where the Python code
would raise.
-/

/-- JSON-like Python value: `None`, `bool`, `int`, `str`, `list`, `dict`
(a dict is a list of key/value pairs in insertion order; Python dict keys are
unique, which theorems assume via `List.Nodup` hypotheses where needed). -/
inductive Value where
  | vnull : Value
  | vbool : Bool → Value
  | vint : Int → Value
  | vstr : String → Value
  | vlist : List Value → Value
  | vdict : List (String × Value) → Value
deriving Repr

open Value

/-- Python truthiness (`bool(x)`): `None`, `False`, `0`, `""`, `[]`, `{}` are
falsy, everything else truthy. -/
def truthy : Value → Bool
  | vnull => false
  | vbool b => b
  | vint n => n != 0
  | vstr s => s != ""
  | vlist xs => !xs.isEmpty
  | vdict kvs => !kvs.isEmpty

/-- First-occurrence lookup in a dict's entry list (Python `d[k]` /
`k in d`, entry lists from real dicts have unique keys). -/
def lookupV (k : String) : List (String × Value) → Option Value
  | [] => none
  | (k', v) :: rest => if k' = k then some v else lookupV k rest

/-- `isSubstrOf n h` is Python's `n in h` for strings: `n` occurs as a
contiguous substring of `h` (the empty string occurs in every string). -/
def isSubstrOf (n h : String) : Bool :=
  (List.range (h.length + 1)).any fun i => (h.toList.drop i).take n.length == n.toList

/-- `True`/`False` of a dict-valued Python value test. -/
def isVdict : Value → Bool
  | vdict _ => true
  | _ => false

def isVnull : Value → Bool
  | vnull => true
  | _ => false

mutual

/-- Python `==` on JSON-like values: `None` equals only itself, `bool` and
`int` compare with Python's numeric coercion (`True == 1`, `False == 0`),
lists compare positionally, dicts compare by key set and per-key values
(insertion order irrelevant).  Cross-type comparisons are `False`. -/
def pyEq : Value → Value → Bool
  | vnull, vnull => true
  | vbool a, vbool b => a == b
  | vbool a, vint b => (if a then (1 : Int) else 0) == b
  | vint a, vbool b => a == (if b then (1 : Int) else 0)
  | vint a, vint b => a == b
  | vstr a, vstr b => a == b
  | vlist xs, vlist ys => pyEqList xs ys
  | vdict a, vdict b => a.length == b.length && pyEqEntries a b
  | _, _ => false

/-- Positional equality of Python lists. -/
def pyEqList : List Value → List Value → Bool
  | [], [] => true
  | x :: xs, y :: ys => pyEq x y && pyEqList xs ys
  | _, _ => false

/-- Every entry of `a` is matched by key in `b` with a `pyEq`-equal value. -/
def pyEqEntries : List (String × Value) → List (String × Value) → Bool
  | [], _ => true
  | (k, v) :: rest, b =>
    (match lookupV k b with
     | some w => pyEq v w
     | none => false) && pyEqEntries rest b

end

/-- Python `k in x` for a string key `k`: key test on dicts, substring test
on strings, element test on lists; `TypeError` (error) on `None`, ints and
bools. -/
def pyContains (k : String) : Value → Except Unit Bool
  | vdict kvs => .ok (lookupV k kvs).isSome
  | vstr s => .ok (isSubstrOf k s)
  | vlist xs => .ok (xs.any fun x => pyEq x (vstr k))
  | _ => .error ()

/-- Python `x[k]` for a string key `k`: dict item access; on every other type
a string subscript raises (`TypeError`), and a missing dict key raises
(`KeyError`). -/
def pyIndex (k : String) : Value → Except Unit Value
  | vdict kvs =>
    match lookupV k kvs with
    | some v => .ok v
    | none => .error ()
  | _ => .error ()

/-- Set `d[k] = v` on a dict entry list: replace the (first) existing entry
in place, else append — exactly Python's dict assignment on unique-key
dicts. -/
def setKey (k : String) (v : Value) : List (String × Value) → List (String × Value)
  | [] => [(k, v)]
  | (k', v') :: rest =>
    if k' = k then (k', v) :: rest else (k', v') :: setKey k v rest

/-- Python `x[k] = v` as a pure update: succeeds on dicts, raises
(`TypeError`) on every other type. -/
def pyAssign (k : String) (v : Value) : Value → Except Unit Value
  | vdict kvs => .ok (vdict (setKey k v kvs))
  | _ => .error ()

theorem lookupV_sizeOf_lt {k : String} {kvs : List (String × Value)} {v : Value}
    (h : lookupV k kvs = some v) : sizeOf v < sizeOf kvs := by
  induction kvs with
  | nil => simp [lookupV] at h
  | cons hd tl ih =>
    obtain ⟨k', v'⟩ := hd
    simp only [lookupV] at h
    split at h
    · cases h
      simp
      omega
    · have := ih h
      simp
      omega

theorem pyIndex_sizeOf_lt {k : String} {x v : Value}
    (h : pyIndex k x = Except.ok v) : sizeOf v < sizeOf x := by
  cases x <;> simp [pyIndex] at h
  next kvs =>
    rcases h' : lookupV k kvs with _ | w
    · rw [h'] at h
      cases h
    · rw [h'] at h
      cases h
      have := lookupV_sizeOf_lt h'
      simp
      omega

mutual

/-- `NSXTBaseRealizableResource.check_for_update(existing_params,
resource_params)` (nsxt_base_resource.py lines 145-167), with
`resource_params` a dict given as its entry list.  Falsy `existing_params`
(`None`, `{}`, ...) returns `False` at once; otherwise the keys of
`resource_params` are walked in order: a key missing from `existing_params`
returns `True`, a dict value recurses, any other value compares with Python
`==` and a mismatch returns `True`.  `Except.error` marks the inputs on
which the Python code raises a `TypeError` (a truthy non-dict
`existing_params` being tested for membership / subscripted). -/
def check_for_update (existing : Value) (resource_params : List (String × Value)) :
    Except Unit Bool :=
  if truthy existing = false then .ok false
  else cfuLoop existing resource_params
termination_by (sizeOf existing + sizeOf resource_params, 1)
decreasing_by
  exact Prod.Lex.right _ (by omega)

/-- The `for k, v in resource_params.items()` loop of `check_for_update`. -/
def cfuLoop (existing : Value) : List (String × Value) → Except Unit Bool
  | [] => .ok false
  | (k, v) :: rest =>
    match pyContains k existing with
    | .error e => .error e
    | .ok false => .ok true
    | .ok true =>
      match h : pyIndex k existing with
      | .error e => .error e
      | .ok ev =>
        match v with
        | vdict kvs =>
          match check_for_update ev kvs with
          | .error e => .error e
          | .ok true => .ok true
          | .ok false => cfuLoop existing rest
        | _ => if pyEq v ev then cfuLoop existing rest else .ok true
termination_by l => (sizeOf existing + sizeOf l, 0)
decreasing_by
  all_goals first
    | (apply Prod.Lex.left
       have h1 := pyIndex_sizeOf_lt h
       simp at h1 ⊢
       try omega)
    | (apply Prod.Lex.left
       simp
       try omega)

end

mutual

/-- `NSXTBaseRealizableResource._fill_missing_resource_params(existing_params,
resource_params)` (nsxt_base_resource.py lines 603-617) as a pure function:
the Python code mutates `resource_params` in place, the embedding returns the
updated value.  Falsy `existing_params` is a no-op; otherwise every
`k, v` entry of `existing_params` is walked in order: a key missing from
`resource_params` is copied in, a dict value recurses into
`resource_params[k]`.  `Except.error` marks inputs on which the Python code
raises (`.items()` on a truthy non-dict, or membership / subscript /
assignment on a non-dict `resource_params`). -/
def fill_missing_resource_params (existing resource_params : Value) :
    Except Unit Value :=
  if truthy existing = false then .ok resource_params
  else
    match existing with
    | vdict es => fillLoop es resource_params
    | _ => .error ()
termination_by (sizeOf existing, 1)
decreasing_by
  apply Prod.Lex.left
  simp
  try omega

/-- The `for k, v in existing_params.items()` loop of
`fill_missing_resource_params`, carrying the current `resource_params`. -/
def fillLoop : List (String × Value) → Value → Except Unit Value
  | [], rp => .ok rp
  | (k, v) :: rest, rp =>
    match pyContains k rp with
    | .error e => .error e
    | .ok false =>
      match pyAssign k v rp with
      | .error e => .error e
      | .ok rp2 => fillLoop rest rp2
    | .ok true =>
      match v with
      | vdict vs =>
        match pyIndex k rp with
        | .error e => .error e
        | .ok dv =>
          match fill_missing_resource_params (vdict vs) dv with
          | .error e => .error e
          | .ok dv2 =>
            match pyAssign k dv2 rp with
            | .error e => .error e
            | .ok rp2 => fillLoop rest rp2
      | _ => fillLoop rest rp
termination_by es rp => (sizeOf es, 0)
decreasing_by
  all_goals (apply Prod.Lex.left; simp; try omega)

end

/-- `NSXTBaseRealizableResource.INCORRECT_ARGUMENT_NAME_VALUE`, the sentinel
returned by `_getAttribute` when the module params hold no matching key. -/
def INCORRECT_ARGUMENT_NAME_VALUE : Value := vstr "error_invalid_parameter"

/-- Python `d.get(k, dflt)` on a dict. -/
def pyGet (d : List (String × Value)) (k : String) (dflt : Value) : Value :=
  match lookupV k d with
  | some v => v
  | none => dflt

/-- `NSXTBaseRealizableResource._getAttribute(attribute)` (nsxt_base_resource.py
lines 312-338).  `isBase` is `get_resource_name() in BASE_RESOURCES`,
`resourceName` is `get_resource_name()`, `uid` is
`get_unique_arg_identifier()`, `parentState` is
`self._parent_info["_parent"].get_state()`, `achieveOwnStateIfDelParent` is
`self.achieve_subresource_state_if_del_parent()` (defaults to `False` in the
base class, lines 107-110), and `moduleParams` is `self.module.params`.
For a sub-resource reading `"state"` while the parent's state is `"absent"`
and the opt-out flag is `False`, the declared state is ignored and
`"absent"` is returned; otherwise the prefixed module param is looked up. -/
def getAttribute (isBase : Bool) (resourceName uid : String) (parentState : Value)
    (achieveOwnStateIfDelParent : Bool) (moduleParams : List (String × Value))
    (attrName : String) : Value :=
  if isBase then
    pyGet moduleParams attrName
      (pyGet moduleParams (resourceName ++ "_" ++ attrName)
        INCORRECT_ARGUMENT_NAME_VALUE)
  else
    if attrName == "state" && pyEq parentState (vstr "absent")
        && !achieveOwnStateIfDelParent then
      vstr "absent"
    else
      pyGet moduleParams (uid ++ "_" ++ attrName) INCORRECT_ARGUMENT_NAME_VALUE

/-- The `filter_with_spec(spec)` inner function of
`_extract_resource_params` (nsxt_base_resource.py lines 350-358), folded over
the spec's keys in order, threading the accumulated `params` dict.  A spec
key is copied (unprefixed) into `params` when its (prefixed for
sub-resources) arg key is present in the module params, not among the
unwanted keys, and not `None`. -/
def filter_with_spec (isBase : Bool) (uid : String)
    (moduleParams : List (String × Value)) (unwanted : List String) :
    List String → List (String × Value) → List (String × Value)
  | [], params => params
  | key :: rest, params =>
    let argKey := if isBase then key else uid ++ "_" ++ key
    let params' :=
      match lookupV argKey moduleParams with
      | some v =>
        if argKey ∈ unwanted then params
        else if isVnull v then params
        else setKey key v params
      | none => params
    filter_with_spec isBase uid moduleParams unwanted rest params'

/-- `NSXTBaseRealizableResource._extract_resource_params()`
(nsxt_base_resource.py lines 340-361): the unwanted keys are `state`/`id`
(prefixed with the unique arg identifier for sub-resources); the resource's
own spec keys are filtered first, then the base spec keys
(`id`, `display_name`, `description`, `tags`, `state`). -/
def extract_resource_params (isBase : Bool) (uid : String)
    (moduleParams : List (String × Value))
    (resourceSpecKeys baseSpecKeys : List String) : List (String × Value) :=
  let unwanted :=
    if isBase then ["state", "id"]
    else [uid ++ "_" ++ "state", uid ++ "_" ++ "id"]
  filter_with_spec isBase uid moduleParams unwanted baseSpecKeys
    (filter_with_spec isBase uid moduleParams unwanted resourceSpecKeys [])

/-- The keys of the base arg spec built by
`_get_base_arg_spec_of_resource` (nsxt_base_resource.py lines 275-310). -/
def baseArgSpecKeys : List String :=
  ["id", "display_name", "description", "tags", "state"]

/-- A sub-resource class as seen by `_get_sub_resources_class_of`: its name
and its `get_resource_creation_priority()` (default 1, lines 117-126). -/
structure SubresourceClass where
  name : String
  creationPriority : Int
deriving Repr, DecidableEq

/-- Stable insertion of `x` into `l`: `x` goes in front of the first element
not strictly before it.  With `strictBefore` comparing sort keys this is the
unique stable placement, matching Python's stable `list.sort`. -/
def insertBy (strictBefore : α → α → Bool) (x : α) : List α → List α
  | [] => [x]
  | y :: ys => if strictBefore y x then y :: insertBy strictBefore x ys else x :: y :: ys

/-- Stable sort (insertion sort).  Python's `list.sort(key=..., reverse=...)`
is stable, and a stable sort's output is uniquely determined by the key
order, so this is the denotation of the Python call. -/
def sortStable (strictBefore : α → α → Bool) : List α → List α
  | [] => []
  | x :: xs => insertBy strictBefore x (sortStable strictBefore xs)

/-- `NSXTBaseRealizableResource._get_sub_resources_class_of`
(nsxt_base_resource.py lines 538-553), restricted to the ordering it applies
to the collected sub-resource classes: when `self._state` exists and equals
`"present"` the classes are sorted by `get_resource_creation_priority()`
descending (`reverse=True`); otherwise ascending.  `state = none` models a
missing `_state` attribute (`hasattr` false). -/
def get_sub_resources_class_of (state : Option Value)
    (subs : List SubresourceClass) : List SubresourceClass :=
  if (match state with
      | some st => pyEq st (vstr "present")
      | none => false) then
    sortStable (fun a b => a.creationPriority > b.creationPriority) subs
  else
    sortStable (fun a b => a.creationPriority < b.creationPriority) subs

/-- One outcome of the fetch `self._send_request_to_API("/" + self.id)`
performed by `_wait_till_create`: either some exception is raised during the
iteration (during the request itself or while inspecting the response — the
whole loop body sits inside `try`), or a response arrives with transport
code `rc` and an optional `state` field in its body. -/
inductive FetchOutcome where
  | raise : FetchOutcome
  | resp (rc : Int) (state : Option String) : FetchOutcome
deriving Repr, DecidableEq

/-- `FAILED_STATES`, `IN_PROGRESS_STATES` and `SUCCESS_STATES` of
`_wait_till_create` (nsxt_base_resource.py lines 570-572). -/
def IN_PROGRESS_STATES : List String := ["pending", "in_progress"]

def SUCCESS_STATES : List String := ["partial_success", "success"]

/-- The three status classes of the poller.  The code tests
`any(resp['state'] in progress_status for progress_status in
IN_PROGRESS_STATES)` — Python's `in` on two strings, i.e. a substring test
of the reported state against each listed state. -/
inductive StatusClass where
  | inProgress : StatusClass
  | success : StatusClass
  | failed : StatusClass
deriving Repr, DecidableEq

/-- Classification of a reported `state` value by `_wait_till_create`
(lines 577-590): in-progress patterns are tested first, then success
patterns, anything else is the failed class. -/
def classify (s : String) : StatusClass :=
  if IN_PROGRESS_STATES.any (fun p => isSubstrOf s p) then .inProgress
  else if SUCCESS_STATES.any (fun p => isSubstrOf s p) then .success
  else .failed

/-- The observable result of one `_wait_till_create` run: the returned
boolean, the number of fetches issued, and the total units slept
(`time.sleep(10)` per in-progress retry, `time.sleep(1)` per
no-status-field retry). -/
structure PollResult where
  ok : Bool
  fetches : Nat
  sleepUnits : Nat
deriving Repr, DecidableEq

/-- The `while True` loop of `_wait_till_create` (nsxt_base_resource.py
lines 569-601).  `count` is the loop's attempt counter (starts at 0);
`attempt` indexes the fetch trace; `fuel` is a recursion bound fixed at
`90 - count`, which the loop never exhausts: every iteration either returns
or increments `count`, and `count == 90` returns `False`, so the `fuel = 0`
branch is unreachable from the entry point `wait_till_create` (see
`C5_poller_bound` where the `fuel = 0` value also satisfies the invariant
formula).  Any raised exception yields `False` via the surrounding
`try`/`except`. -/
def waitTillCreateLoop (fetch : Nat → FetchOutcome) :
    Nat → Nat → Nat → PollResult
  | _, _, 0 => ⟨false, 0, 0⟩
  | count, attempt, fuel + 1 =>
    match fetch attempt with
    | .raise => ⟨false, 1, 0⟩
    | .resp rc st =>
      match st with
      | some s =>
        match classify s with
        | .inProgress =>
          if count + 1 == 90 then ⟨false, 1, 10⟩
          else
            let r := waitTillCreateLoop fetch (count + 1) (attempt + 1) fuel
            ⟨r.ok, r.fetches + 1, r.sleepUnits + 10⟩
        | .success => ⟨true, 1, 0⟩
        | .failed => ⟨false, 1, 0⟩
      | none =>
        if rc != 200 then
          if count + 1 == 90 then ⟨false, 1, 1⟩
          else
            let r := waitTillCreateLoop fetch (count + 1) (attempt + 1) fuel
            ⟨r.ok, r.fetches + 1, r.sleepUnits + 1⟩
        else ⟨true, 1, 0⟩

/-- `NSXTBaseRealizableResource._wait_till_create()` over a fetch trace
(`fetch n` is the outcome of the `n`-th request): `count = 0`, and the
recursion bound set to the only value the `count == 90` cut-off permits. -/
def wait_till_create (fetch : Nat → FetchOutcome) : PollResult :=
  waitTillCreateLoop fetch 0 0 90

/-- An outcome on which `_wait_till_create` sleeps 10 units and retries:
a response whose `state` field classifies as in-progress. -/
def inProgressOutcome : FetchOutcome → Bool
  | .resp _ (some s) => classify s == .inProgress
  | _ => false

/-- An outcome on which `_wait_till_create` takes the no-status-field
fallback and retries: no `state` field and a transport code other than
200. -/
def noStatusRetryOutcome : FetchOutcome → Bool
  | .resp rc none => rc != 200
  | _ => false

/-- Which result-log list a call appends to.  Python's
`def realize(self, supports_check_mode=True, successful_resource_exec_logs=[])`
(nsxt_base_resource.py lines 23-24) gives the log parameter a mutable default
list — a single object shared by every call that does not pass the argument.
`caller` is a list the top-level caller constructed and passed explicitly;
`shared` is that module-level default list. -/
inductive LogRef where
  | caller : LogRef
  | shared : LogRef
deriving Repr, DecidableEq

/-- A result record: for the log-threading model only the id of the resource
whose leaf action produced it matters. -/
structure LogEntry where
  resourceId : String
deriving Repr, DecidableEq

/-- The two result-log lists in play during a run. -/
structure LogStore where
  callerLog : List LogEntry
  sharedLog : List LogEntry
deriving Repr, DecidableEq

def appendEntry (σ : LogStore) (ρ : LogRef) (e : LogEntry) : LogStore :=
  match ρ with
  | .caller => { σ with callerLog := σ.callerLog ++ [e] }
  | .shared => { σ with sharedLog := σ.sharedLog ++ [e] }

/-- What arrives in `realize`'s first (`supports_check_mode`) parameter slot:
its declared default `True`, or — through the positional call
`sub_resource.realize(successful_resource_exec_logs)` at line 137 — the
parent's log list object.  The value only feeds `AnsibleModule` and is
truthy either way, so it is carried but unused. -/
inductive CheckModeSlot where
  | defaultTrue : CheckModeSlot
  | logObject (ρ : LogRef) : CheckModeSlot
deriving Repr, DecidableEq

/-- A resource node for the traversal model: its id and its sub-resources in
visit order. -/
structure RNode where
  id : String
  children : List RNode
deriving Repr

mutual

/-- `realize` (nsxt_base_resource.py lines 23-71) restricted to the result-log
threading: after setup it calls `self._achieve_state(log)` (a correct
positional pass, line 71 / 506).  The `slot` argument is the
`supports_check_mode` parameter; `log` is `successful_resource_exec_logs`,
whose Python default is the shared list (`LogRef.shared`). -/
def realizeThread (n : RNode) (slot : CheckModeSlot) (log : LogRef)
    (σ : LogStore) : LogStore :=
  achieveStateThread n log σ
termination_by (sizeOf n, 1)
decreasing_by
  exact Prod.Lex.right _ (by omega)

/-- `_achieve_state` (lines 506-536) restricted to log threading, with the
default flags (`state` present, `create_or_update_subresource_first` false):
the node's own leaf action appends one record to `log`
(`_achieve_present_state`, line 523), then `achieve_subresource_state(log)`
visits the children (line 529). -/
def achieveStateThread (n : RNode) (log : LogRef) (σ : LogStore) : LogStore :=
  subresourceLoop n.children log (appendEntry σ log ⟨n.id⟩)
termination_by (sizeOf n, 0)
decreasing_by
  apply Prod.Lex.left
  cases n
  simp
  try omega

/-- `achieve_subresource_state(successful_resource_exec_logs)` (lines
128-137): for each sub-resource it calls
`sub_resource.realize(successful_resource_exec_logs)` — POSITIONALLY, so the
log list lands in the `supports_check_mode` slot and the child's
`successful_resource_exec_logs` parameter falls back to its default, the
shared list. -/
def subresourceLoop (cs : List RNode) (log : LogRef) (σ : LogStore) : LogStore :=
  match cs with
  | [] => σ
  | c :: rest =>
    subresourceLoop rest log (realizeThread c (.logObject log) .shared σ)
termination_by (sizeOf cs, 2)
decreasing_by
  · apply Prod.Lex.left
    simp
    omega
  · apply Prod.Lex.left
    simp
    try omega

end

/-- A top-level run handed an explicitly constructed fresh result log: the
caller's list is `log`, and `realize` returns (via `module.exit_json` at
lines 534-536) the caller-visible list. -/
def realizeRun (root : RNode) (σ : LogStore) : LogStore :=
  realizeThread root .defaultTrue .caller σ

/-- An API request issued through `_send_request_to_API`. -/
inductive ApiCall where
  | get (suffix : String) : ApiCall
  | patch (suffix : String) (data : Value) : ApiCall
  | delete (suffix : String) : ApiCall
deriving Repr

/-- How an `_achieve_present_state` / `_achieve_absent_state` call ends:
normal return, `module.fail_json` (run aborted, partial log surfaced), or an
uncaught Python exception propagating out of the method. -/
inductive ExecOutcome where
  | ret : ExecOutcome
  | failJson : ExecOutcome
  | raised : ExecOutcome
deriving Repr, DecidableEq

/-- The records `_achieve_present_state` / `_achieve_absent_state` append to
`successful_resource_exec_logs`, one constructor per `append` site, carrying
the data each record embeds. -/
inductive ExecLogEntry where
  /-- Lines 372-379 (dry-run, create path):
  `{id: {"changed": True, "debug_out": json.dumps(params), "id": '12345',
  "resource_type": name}}` — a hypothetical-change record. -/
  | checkCreate (rid : String) (params : List (String × Value)) (rtype : String)
  /-- Lines 384-392: `{id: {"changed": False, "id": id, "message": "... already
  exists.", "resource_type": name}}`. -/
  | alreadyExists (rid : String) (rtype : String)
  /-- Lines 402-411: `{id: {"changed": True, "id": id, "body": str(resp),
  "message": "... created.", "resource_type": name}}`. -/
  | created (rid : String) (rtype : String) (body : Value)
  /-- Lines 437-444: `{"changed": True, "id": id, "body": str(resp),
  "message": "... updated.", "resource_type": name}`. -/
  | updatedEntry (rid : String) (rtype : String) (body : Value)
  /-- Lines 456-463: `{id: {"changed": False, "msg": 'No ... exist with id
  ...', "resource_type": name}}`. -/
  | noExist (rid : String) (rtype : String)
  /-- Lines 466-471 (dry-run, delete path): `{"changed": True, "debug_out":
  json.dumps(params), "id": id, "resource_type": name}` — a
  hypothetical-change record. -/
  | checkDelete (rid : String) (params : List (String × Value)) (rtype : String)
  /-- Lines 476-481: `{"changed": True, "id": id, "message": "... deleted."}`. -/
  | deleted (rid : String)
deriving Repr

/-- Result of one `_achieve_present_state` / `_achieve_absent_state` call:
the records it appended (in order), the API requests it issued (in order,
GET polling reads of `_wait_till_create` / `_wait_till_delete` omitted — they
are reads, not mutations), and how it ended. -/
structure ExecResult where
  log : List ExecLogEntry
  calls : List ApiCall
  outcome : ExecOutcome
deriving Repr

/-- `NSXTBaseRealizableResource._achieve_present_state` (nsxt_base_resource.py
lines 363-452).  `check_mode` is `self.module.check_mode`; `existing` is
`self.existing_resource` (`none` = `None`); `resource_params` is
`self.resource_params`; `doWaitTillCreate` is `self.do_wait_till_create()`,
`waitOk` the result `_wait_till_create()` would return; `patchResult` the
behaviour of the PATCH request (`error` = the request raises).

Two slips of the source are visible here:
* in the update branch under check mode (lines 423-430) the code appends to
  `successfully_updated_resources`, a name defined nowhere, so a `NameError`
  propagates (`.raised`) — no record is appended and no call issued;
* line 431 reads `self.existing_resource['_revision']` outside any `try`, so
  a missing `_revision` key raises `KeyError` (`.raised`). -/
def achieve_present_state (check_mode : Bool) (existing : Option Value)
    (resource_params : List (String × Value)) (rid rtype : String)
    (doWaitTillCreate waitOk : Bool) (patchResult : Except Unit Value) :
    ExecResult :=
  match check_for_update (match existing with | some e => e | none => vnull)
      resource_params with
  | .error _ => ⟨[], [], .raised⟩
  | .ok updated =>
    if updated = false then
      if check_mode then ⟨[.checkCreate rid resource_params rtype], [], .ret⟩
      else
        match existing with
        | some _ => ⟨[.alreadyExists rid rtype], [], .ret⟩
        | none =>
          match patchResult with
          | .error _ =>
            ⟨[], [.patch ("/" ++ rid) (vdict resource_params)], .failJson⟩
          | .ok resp =>
            if doWaitTillCreate && !waitOk then
              ⟨[], [.patch ("/" ++ rid) (vdict resource_params)], .failJson⟩
            else
              ⟨[.created rid rtype resp],
               [.patch ("/" ++ rid) (vdict resource_params)], .ret⟩
    else
      if check_mode then ⟨[], [], .raised⟩
      else
        match existing with
        | none => ⟨[], [], .raised⟩
        | some ex =>
          match pyIndex "_revision" ex with
          | .error _ => ⟨[], [], .raised⟩
          | .ok rev =>
            let rp2 := setKey "_revision" rev resource_params
            match patchResult with
            | .error _ => ⟨[], [.patch ("/" ++ rid) (vdict rp2)], .failJson⟩
            | .ok resp =>
              ⟨[.updatedEntry rid rtype resp],
               [.patch ("/" ++ rid) (vdict rp2)], .ret⟩

/-- `NSXTBaseRealizableResource._achieve_absent_state` (nsxt_base_resource.py
lines 454-487).  `deleteResult` is the behaviour of the DELETE request;
`dupDuringWait` is whether `_wait_till_delete` hits a
`DuplicateRequestError` (which `fail_json`s, lines 564-565). -/
def achieve_absent_state (check_mode : Bool) (existing : Option Value)
    (resource_params : List (String × Value)) (rid rtype : String)
    (deleteResult : Except Unit Unit) (dupDuringWait : Bool) : ExecResult :=
  match existing with
  | none => ⟨[.noExist rid rtype], [], .ret⟩
  | some _ =>
    if check_mode then ⟨[.checkDelete rid resource_params rtype], [], .ret⟩
    else
      match deleteResult with
      | .error _ => ⟨[], [.delete ("/" ++ rid)], .failJson⟩
      | .ok _ =>
        if dupDuringWait then ⟨[], [.delete ("/" ++ rid)], .failJson⟩
        else ⟨[.deleted rid], [.delete ("/" ++ rid)], .ret⟩

/-- C7: for a sub-resource whose parent's resolved state is `"absent"`, the
default opt-in (`achieve_subresource_state_if_del_parent() = False`) forces
the state read through `_getAttribute` to `"absent"` whatever the module
params declare, while opting out (returning `True`) keeps the child's own
declared state (the `<uid>_state` module param). -/
theorem C7_state_inheritance :
    (∀ (resourceName uid : String) (moduleParams : List (String × Value)),
      getAttribute false resourceName uid (vstr "absent") false moduleParams
        "state" = vstr "absent") ∧
    (∀ (resourceName uid : String) (moduleParams : List (String × Value))
      (declared : Value),
      lookupV (uid ++ "_" ++ "state") moduleParams = some declared →
      getAttribute false resourceName uid (vstr "absent") true moduleParams
        "state" = declared) := by
  constructor
  · intro resourceName uid moduleParams
    simp [getAttribute, pyEq]
  · intro resourceName uid moduleParams declared h
    simp [getAttribute, pyEq, pyGet, h]

/-- Witness for `C7_state_inheritance`: a child declaring `present` under an
absent parent reads `absent` with the default flag and `present` after
opting out. -/
theorem C7_state_inheritance_witness :
    getAttribute false "NSXTPort" "NSXTPort" (vstr "absent") false
      [("NSXTPort_state", vstr "present")] "state" = vstr "absent" ∧
    getAttribute false "NSXTPort" "NSXTPort" (vstr "absent") true
      [("NSXTPort_state", vstr "present")] "state" = vstr "present" :=
  ⟨C7_state_inheritance.1 "NSXTPort" "NSXTPort" [("NSXTPort_state", vstr "present")],
   C7_state_inheritance.2 "NSXTPort" "NSXTPort" [("NSXTPort_state", vstr "present")]
     (vstr "present") rfl⟩

theorem insertBy_perm (sb : α → α → Bool) (x : α) :
    ∀ l : List α, (insertBy sb x l).Perm (x :: l) := by
  intro l
  induction l with
  | nil => simp [insertBy]
  | cons y ys ih =>
    rw [insertBy]
    split
    · exact (List.Perm.cons y ih).trans (List.Perm.swap x y ys)
    · exact .refl _

theorem sortStable_perm (sb : α → α → Bool) :
    ∀ l : List α, (sortStable sb l).Perm l := by
  intro l
  induction l with
  | nil => exact .refl _
  | cons x xs ih =>
    rw [sortStable]
    exact ((insertBy_perm sb x (sortStable sb xs)).trans (.cons x ih))

theorem insertBy_pairwise (sb : α → α → Bool)
    (hasym : ∀ a b, sb a b = true → sb b a = false)
    (hnegtrans : ∀ a b c, sb b a = false → sb c b = false → sb c a = false)
    (x : α) :
    ∀ l : List α, l.Pairwise (fun a b => sb b a = false) →
      (insertBy sb x l).Pairwise (fun a b => sb b a = false) := by
  intro l
  induction l with
  | nil => simp [insertBy]
  | cons y ys ih =>
    intro hp
    rw [List.pairwise_cons] at hp
    obtain ⟨hy, hys⟩ := hp
    rw [insertBy]
    split
    next hyx =>
      rw [List.pairwise_cons]
      constructor
      · intro z hz
        have hz' := (insertBy_perm sb x ys).mem_iff.mp hz
        rw [List.mem_cons] at hz'
        rcases hz' with hz' | hz'
        · rw [hz']
          exact hasym y x hyx
        · exact hy z hz' 
      · exact ih hys
    next hyx =>
      rw [List.pairwise_cons]
      constructor
      · intro z hz
        rcases hz with _ | hz
        · simpa using hyx
        · exact hnegtrans x y z (by simpa using hyx) (hy z (by assumption))
      · exact List.pairwise_cons.mpr ⟨hy, hys⟩

theorem sortStable_pairwise (sb : α → α → Bool)
    (hasym : ∀ a b, sb a b = true → sb b a = false)
    (hnegtrans : ∀ a b c, sb b a = false → sb c b = false → sb c a = false) :
    ∀ l : List α, (sortStable sb l).Pairwise (fun a b => sb b a = false) := by
  intro l
  induction l with
  | nil => simp [sortStable]
  | cons x xs ih =>
    rw [sortStable]
    exact insertBy_pairwise sb hasym hnegtrans x _ ih

/-- C8: `_get_sub_resources_class_of` visits siblings in descending
`creationPriority` order when the node's state is `"present"` and in
ascending order when it is `"absent"`: the output is always a permutation of
the collected classes, pairwise ordered accordingly, and on the priorities
`[A:10, B:5, C:1]` the creation order is `A, B, C` while the deletion order
is `C, B, A`. -/
theorem C8_sibling_ordering :
    (∀ subs : List SubresourceClass,
      (get_sub_resources_class_of (some (vstr "present")) subs).Perm subs) ∧
    (∀ subs : List SubresourceClass,
      (get_sub_resources_class_of (some (vstr "present")) subs).Pairwise
        (fun a b => b.creationPriority ≤ a.creationPriority)) ∧
    (∀ subs : List SubresourceClass,
      (get_sub_resources_class_of (some (vstr "absent")) subs).Perm subs) ∧
    (∀ subs : List SubresourceClass,
      (get_sub_resources_class_of (some (vstr "absent")) subs).Pairwise
        (fun a b => a.creationPriority ≤ b.creationPriority)) ∧
    get_sub_resources_class_of (some (vstr "present"))
      [⟨"A", 10⟩, ⟨"B", 5⟩, ⟨"C", 1⟩] = [⟨"A", 10⟩, ⟨"B", 5⟩, ⟨"C", 1⟩] ∧
    get_sub_resources_class_of (some (vstr "absent"))
      [⟨"A", 10⟩, ⟨"B", 5⟩, ⟨"C", 1⟩] = [⟨"C", 1⟩, ⟨"B", 5⟩, ⟨"A", 10⟩] := by
  refine ⟨?_, ?_, ?_, ?_, by decide, by decide⟩
  · intro subs
    simp only [get_sub_resources_class_of, pyEq]
    rw [if_pos (by rfl)]
    exact sortStable_perm _ subs
  · intro subs
    simp only [get_sub_resources_class_of, pyEq]
    rw [if_pos (by rfl)]
    have := sortStable_pairwise
      (fun a b : SubresourceClass => a.creationPriority > b.creationPriority)
      (by intro a b h; simp at h ⊢; omega)
      (by intro a b c h1 h2; simp at h1 h2 ⊢; omega) subs
    refine this.imp ?_
    intro a b h
    simp at h
    omega
  · intro subs
    simp only [get_sub_resources_class_of, pyEq]
    rw [if_neg (by simp)]
    exact sortStable_perm _ subs
  · intro subs
    simp only [get_sub_resources_class_of, pyEq]
    rw [if_neg (by simp)]
    have := sortStable_pairwise
      (fun a b : SubresourceClass => a.creationPriority < b.creationPriority)
      (by intro a b h; simp at h ⊢; omega)
      (by intro a b c h1 h2; simp at h1 h2 ⊢; omega) subs
    refine this.imp ?_
    intro a b h
    simp at h
    omega

theorem waitLoop_all_inProgress (fetch : Nat → FetchOutcome)
    (h : ∀ n, inProgressOutcome (fetch n) = true) :
    ∀ fuel count attempt, count + fuel = 90 →
      waitTillCreateLoop fetch count attempt fuel = ⟨false, fuel, fuel * 10⟩ := by
  intro fuel
  induction fuel with
  | zero => intro count attempt _; rfl
  | succ fuel ih =>
    intro count attempt hsum
    have h1 := h attempt
    rw [waitTillCreateLoop]
    rcases hf : fetch attempt with _ | ⟨rc, st⟩
    · rw [hf] at h1; simp [inProgressOutcome] at h1
    · rw [hf] at h1
      rcases st with _ | s
      · simp [inProgressOutcome] at h1
      · simp only [inProgressOutcome, beq_iff_eq] at h1
        simp only [h1]
        by_cases hc : count + 1 = 90
        · have : fuel = 0 := by omega
          subst this
          simp [hc]
        · have hc' : (count + 1 == 90) = false := by simp; omega
          simp only [hc', if_false]
          rw [ih (count + 1) (attempt + 1) (by omega)]
          simp
          try omega

theorem waitLoop_all_noStatusRetry (fetch : Nat → FetchOutcome)
    (h : ∀ n, noStatusRetryOutcome (fetch n) = true) :
    ∀ fuel count attempt, count + fuel = 90 →
      waitTillCreateLoop fetch count attempt fuel = ⟨false, fuel, fuel * 1⟩ := by
  intro fuel
  induction fuel with
  | zero => intro count attempt _; rfl
  | succ fuel ih =>
    intro count attempt hsum
    have h1 := h attempt
    rw [waitTillCreateLoop]
    rcases hf : fetch attempt with _ | ⟨rc, st⟩
    · rw [hf] at h1; simp [noStatusRetryOutcome] at h1
    · rw [hf] at h1
      rcases st with _ | s
      · simp only [noStatusRetryOutcome] at h1
        simp only [h1, if_true]
        by_cases hc : count + 1 = 90
        · have : fuel = 0 := by omega
          subst this
          simp [hc]
        · have hc' : (count + 1 == 90) = false := by simp; omega
          simp only [hc', if_false]
          rw [ih (count + 1) (attempt + 1) (by omega)]
          simp
          try omega
      · simp [noStatusRetryOutcome] at h1

/-- C5: if every fetch reports an in-progress status, `_wait_till_create`
returns failure after exactly 90 fetch attempts (sleeping 10 units before
each retry check, 900 units in total) — not earlier, not indefinitely; the
same 90-attempt bound holds when every fetch lacks a status field and
carries a transport code other than 200 (1-unit sleeps). -/
theorem C5_poller_bound :
    (∀ fetch : Nat → FetchOutcome, (∀ n, inProgressOutcome (fetch n) = true) →
      wait_till_create fetch = ⟨false, 90, 900⟩) ∧
    (∀ fetch : Nat → FetchOutcome, (∀ n, noStatusRetryOutcome (fetch n) = true) →
      wait_till_create fetch = ⟨false, 90, 90⟩) := by
  constructor
  · intro fetch h
    rw [wait_till_create, waitLoop_all_inProgress fetch h 90 0 0 (by omega)]
  · intro fetch h
    rw [wait_till_create, waitLoop_all_noStatusRetry fetch h 90 0 0 (by omega)]

/-- Witness for `C5_poller_bound`: a fetch stuck on `in_progress` and a
fetch stuck on transport code 500 without a status field. -/
theorem C5_poller_bound_witness :
    wait_till_create (fun _ => .resp 200 (some "in_progress")) = ⟨false, 90, 900⟩ ∧
    wait_till_create (fun _ => .resp 500 none) = ⟨false, 90, 90⟩ :=
  ⟨C5_poller_bound.1 _ (fun _ => by decide),
   C5_poller_bound.2 _ (fun _ => by decide)⟩

/-- C6: when a response carries a status field, `_wait_till_create`
classifies it into exactly the three classes in-progress / success / failed
(in that trial order, failed being every remaining value), and a
failed-class status makes the poller return failure from the current
iteration: one fetch, no sleep, no retry.  The code's class members are
matched by Python string containment, so e.g. `pending` and `in_progress`
are in-progress and `success` and `partial_success` are successes. -/
theorem C6_status_classes :
    (∀ s, classify s = .inProgress ∨ classify s = .success ∨ classify s = .failed) ∧
    (∀ (fetch : Nat → FetchOutcome) (count attempt fuel : Nat) (rc : Int)
      (s : String), fetch attempt = .resp rc (some s) → classify s = .failed →
      waitTillCreateLoop fetch count attempt (fuel + 1) = ⟨false, 1, 0⟩) ∧
    classify "pending" = .inProgress ∧ classify "in_progress" = .inProgress ∧
    classify "success" = .success ∧ classify "partial_success" = .success := by
  refine ⟨?_, ?_, by decide, by decide, by decide, by decide⟩
  · intro s
    rw [classify]
    split
    · exact Or.inl rfl
    · split
      · exact Or.inr (Or.inl rfl)
      · exact Or.inr (Or.inr rfl)
  · intro fetch count attempt fuel rc s hf hc
    rw [waitTillCreateLoop, hf]
    simp [hc]

/-- Witness for `C6_status_classes`: status `failed` is in the failed class
and stops the poller at once. -/
theorem C6_status_classes_witness :
    waitTillCreateLoop (fun _ => .resp 200 (some "failed")) 0 0 90 = ⟨false, 1, 0⟩ :=
  C6_status_classes.2.1 (fun _ => .resp 200 (some "failed")) 0 0 89 200 "failed"
    rfl (by decide)

/-- C10: the create-wait poller is total over the fetch behaviour: the whole
loop body runs inside `try`/`except Exception: return False`, so an
exception raised at any polling attempt (modelled by the `FetchOutcome.raise`
outcome) makes `_wait_till_create` return the failure boolean immediately —
one fetch, no sleep, nothing propagated; on every behaviour the result is a
`PollResult` (the embedding has no error outcome at all), whose `ok` field
is a boolean. -/
theorem C10_poller_total :
    (∀ (fetch : Nat → FetchOutcome) (count attempt fuel : Nat),
      fetch attempt = .raise →
      waitTillCreateLoop fetch count attempt (fuel + 1) = ⟨false, 1, 0⟩) ∧
    (∀ fetch : Nat → FetchOutcome,
      (wait_till_create fetch).ok = true ∨ (wait_till_create fetch).ok = false) := by
  constructor
  · intro fetch count attempt fuel hf
    rw [waitTillCreateLoop, hf]
  · intro fetch
    rcases h : (wait_till_create fetch).ok with _ | _
    · exact Or.inr rfl
    · exact Or.inl rfl

/-- Witness for `C10_poller_total`: a fetch that raises at the first
attempt yields failure. -/
theorem C10_poller_total_witness :
    waitTillCreateLoop (fun _ => .raise) 0 0 90 = ⟨false, 1, 0⟩ :=
  C10_poller_total.1 (fun _ => .raise) 0 0 89 rfl

theorem lookupV_setKey_self (k : String) (v : Value) :
    ∀ d : List (String × Value), lookupV k (setKey k v d) = some v := by
  intro d
  induction d with
  | nil => simp [setKey, lookupV]
  | cons hd tl ih =>
    obtain ⟨k', v'⟩ := hd
    rw [setKey]
    split
    next heq => simp [lookupV, heq]
    next hne => simp [lookupV, hne, ih]

theorem lookupV_setKey_ne (k k' : String) (v : Value) (hne : k' ≠ k) :
    ∀ d : List (String × Value), lookupV k (setKey k' v d) = lookupV k d := by
  intro d
  induction d with
  | nil => simp [setKey, lookupV, hne]
  | cons hd tl ih =>
    obtain ⟨k0, v0⟩ := hd
    rw [setKey]
    split
    next heq =>
      subst heq
      simp [lookupV, hne]
    next hne0 => simp [lookupV, ih]

theorem lookupV_eq_none_iff (k : String) :
    ∀ l : List (String × Value), lookupV k l = none ↔ k ∉ l.map Prod.fst := by
  intro l
  induction l with
  | nil => simp [lookupV]
  | cons hd tl ih =>
    obtain ⟨k0, v0⟩ := hd
    rw [lookupV]
    split
    next heq => simp [heq]
    next hne =>
      rw [ih]
      constructor
      · intro hnot hmem
        rw [List.map_cons, List.mem_cons] at hmem
        rcases hmem with hmem | hmem
        · exact hne hmem.symm
        · exact hnot hmem
      · intro hnot hmem
        exact hnot (by rw [List.map_cons, List.mem_cons]; exact Or.inr hmem)

theorem fillLoop_cons_nondict (k : String) (v : Value) (hv : isVdict v = false)
    (rest : List (String × Value)) (rp : Value) :
    fillLoop ((k, v) :: rest) rp =
      match pyContains k rp with
      | .error e => .error e
      | .ok false =>
        match pyAssign k v rp with
        | .error e => .error e
        | .ok rp2 => fillLoop rest rp2
      | .ok true => fillLoop rest rp := by
  cases v
  case vdict => simp [isVdict] at hv
  all_goals exact fillLoop.eq_3 rp k _ rest (fun a ha => Value.noConfusion ha)

theorem isVdict_true_elim {v : Value} (hv : isVdict v = true) :
    ∃ vs, v = vdict vs := by
  cases v <;> simp [isVdict] at hv
  exact ⟨_, rfl⟩

theorem fillLoop_nondict_ok :
    ∀ (es : List (String × Value)) (rp out : Value), isVdict rp = false →
      fillLoop es rp = .ok out → out = rp := by
  intro es
  induction es with
  | nil =>
    intro rp out _ h
    rw [fillLoop] at h
    cases h
    rfl
  | cons hd rest ih =>
    obtain ⟨k0, v0⟩ := hd
    intro rp out hnd h
    rcases hv0 : isVdict v0 with _ | _
    · rw [fillLoop_cons_nondict k0 v0 hv0 rest rp] at h
      cases rp
      case vdict d => simp [isVdict] at hnd
      case vnull => simp [pyContains] at h
      case vbool b => simp [pyContains] at h
      case vint n => simp [pyContains] at h
      case vstr s =>
        simp only [pyContains] at h
        cases hc : isSubstrOf k0 s
        · rw [hc] at h
          simp [pyAssign] at h
        · rw [hc] at h
          exact ih _ _ hnd h
      case vlist xs =>
        simp only [pyContains] at h
        cases hc : xs.any fun x => pyEq x (vstr k0)
        · rw [hc] at h
          simp [pyAssign] at h
        · rw [hc] at h
          exact ih _ _ hnd h
    · obtain ⟨vs, rfl⟩ := isVdict_true_elim hv0
      rw [fillLoop] at h
      cases rp
      case vdict d => simp [isVdict] at hnd
      case vnull => simp [pyContains] at h
      case vbool b => simp [pyContains] at h
      case vint n => simp [pyContains] at h
      case vstr s =>
        simp only [pyContains] at h
        cases hc : isSubstrOf k0 s
        · rw [hc] at h
          simp [pyAssign] at h
        · rw [hc] at h
          simp [pyIndex] at h
      case vlist xs =>
        simp only [pyContains] at h
        cases hc : xs.any fun x => pyEq x (vstr k0)
        · rw [hc] at h
          simp [pyAssign] at h
        · rw [hc] at h
          simp [pyIndex] at h

theorem fill_nondict_ok (ex rp out : Value) (hnd : isVdict rp = false)
    (h : fill_missing_resource_params ex rp = .ok out) : out = rp := by
  rcases hv : isVdict ex with _ | _
  · rw [fill_missing_resource_params.eq_2 ex rp
      (fun a ha => by subst ha; simp [isVdict] at hv)] at h
    by_cases ht : truthy ex = false
    · rw [if_pos ht] at h
      cases h
      rfl
    · rw [if_neg ht] at h
      cases h
  · obtain ⟨es, rfl⟩ := isVdict_true_elim hv
    rw [fill_missing_resource_params.eq_1] at h
    by_cases ht : truthy (vdict es) = false
    · rw [if_pos ht] at h
      cases h
      rfl
    · rw [if_neg ht] at h
      exact fillLoop_nondict_ok es rp out hnd h

theorem fillLoop_preserves_value :
    ∀ (es d od : List (String × Value)) (k : String) (dv : Value),
      lookupV k d = some dv → isVdict dv = false →
      fillLoop es (vdict d) = .ok (vdict od) → lookupV k od = some dv := by
  intro es
  induction es with
  | nil =>
    intro d od k dv hk _ h
    rw [fillLoop] at h
    cases h
    exact hk
  | cons hd rest ih =>
    obtain ⟨k0, v0⟩ := hd
    intro d od k dv hk hdv h
    rcases hv0 : isVdict v0 with _ | _
    · rw [fillLoop_cons_nondict k0 v0 hv0 rest (vdict d)] at h
      simp only [pyContains] at h
      cases hl : lookupV k0 d
      · rw [hl] at h
        simp only [Option.isSome_none, pyAssign] at h
        have hne : k0 ≠ k := fun e => by rw [e, hk] at hl; cases hl
        exact ih _ _ k dv (by rw [lookupV_setKey_ne k k0 v0 hne d]; exact hk) hdv h
      · rw [hl] at h
        simp only [Option.isSome_some] at h
        exact ih _ _ k dv hk hdv h
    · obtain ⟨vs, rfl⟩ := isVdict_true_elim hv0
      rw [fillLoop] at h
      simp only [pyContains] at h
      cases hl : lookupV k0 d
      · rw [hl] at h
        simp only [Option.isSome_none, pyAssign] at h
        have hne : k0 ≠ k := fun e => by rw [e, hk] at hl; cases hl
        exact ih _ _ k dv (by rw [lookupV_setKey_ne k k0 _ hne d]; exact hk) hdv h
      next dv0 =>
        rw [hl] at h
        simp only [Option.isSome_some, pyIndex, hl] at h
        rcases hf : fill_missing_resource_params (vdict vs) dv0 with _ | dv2
        · rw [hf] at h
          cases h
        · rw [hf] at h
          simp only [pyAssign] at h
          by_cases he : k0 = k
          · have hdd : dv0 = dv := by
              rw [he, hk] at hl
              exact (Option.some.inj hl).symm
            have hdv2 : dv2 = dv0 :=
              fill_nondict_ok (vdict vs) dv0 dv2 (by rw [hdd]; exact hdv) hf
            have hkey : lookupV k (setKey k0 dv2 d) = some dv := by
              rw [he, lookupV_setKey_self, hdv2, hdd]
            exact ih _ _ k dv hkey hdv h
          · exact ih _ _ k dv
              (by rw [lookupV_setKey_ne k k0 _ he d]; exact hk) hdv h

theorem fillLoop_untouched :
    ∀ (es d od : List (String × Value)) (k : String),
      lookupV k es = none →
      fillLoop es (vdict d) = .ok (vdict od) → lookupV k od = lookupV k d := by
  intro es
  induction es with
  | nil =>
    intro d od k _ h
    rw [fillLoop] at h
    cases h
    rfl
  | cons hd rest ih =>
    obtain ⟨k0, v0⟩ := hd
    intro d od k hkes h
    rw [lookupV] at hkes
    by_cases he : k0 = k
    · rw [if_pos he] at hkes
      cases hkes
    · rw [if_neg he] at hkes
      rcases hv0 : isVdict v0 with _ | _
      · rw [fillLoop_cons_nondict k0 v0 hv0 rest (vdict d)] at h
        simp only [pyContains] at h
        cases hl : lookupV k0 d
        · rw [hl] at h
          simp only [Option.isSome_none, pyAssign] at h
          rw [ih _ _ k hkes h, lookupV_setKey_ne k k0 v0 he d]
        · rw [hl] at h
          simp only [Option.isSome_some] at h
          exact ih _ _ k hkes h
      · obtain ⟨vs, rfl⟩ := isVdict_true_elim hv0
        rw [fillLoop] at h
        simp only [pyContains] at h
        cases hl : lookupV k0 d
        · rw [hl] at h
          simp only [Option.isSome_none, pyAssign] at h
          rw [ih _ _ k hkes h, lookupV_setKey_ne k k0 _ he d]
        next dv0 =>
          rw [hl] at h
          simp only [Option.isSome_some, pyIndex, hl] at h
          rcases hf : fill_missing_resource_params (vdict vs) dv0 with _ | dv2
          · rw [hf] at h
            cases h
          · rw [hf] at h
            simp only [pyAssign] at h
            rw [ih _ _ k hkes h, lookupV_setKey_ne k k0 _ he d]

theorem fillLoop_copies :
    ∀ (es d od : List (String × Value)) (k : String) (w : Value),
      (es.map Prod.fst).Nodup → lookupV k es = some w → lookupV k d = none →
      fillLoop es (vdict d) = .ok (vdict od) → lookupV k od = some w := by
  intro es
  induction es with
  | nil =>
    intro d od k w _ hkes _ _
    rw [lookupV] at hkes
    cases hkes
  | cons hd rest ih =>
    obtain ⟨k0, v0⟩ := hd
    intro d od k w hnd hkes hkd h
    rw [List.map_cons, List.nodup_cons] at hnd
    obtain ⟨hk0rest, hndrest⟩ := hnd
    rw [lookupV] at hkes
    by_cases he : k0 = k
    · rw [if_pos he] at hkes
      have hw : v0 = w := Option.some.inj hkes
      have hl : lookupV k0 d = none := by rw [he]; exact hkd
      have hrest : lookupV k rest = none := by
        rw [lookupV_eq_none_iff]
        rw [← he]
        exact hk0rest
      rcases hv0 : isVdict v0 with _ | _
      · rw [fillLoop_cons_nondict k0 v0 hv0 rest (vdict d)] at h
        simp only [pyContains, hl, Option.isSome_none, pyAssign] at h
        rw [fillLoop_untouched _ _ _ k hrest h, ← he, lookupV_setKey_self, hw]
      · obtain ⟨vs, rfl⟩ := isVdict_true_elim hv0
        rw [fillLoop] at h
        simp only [pyContains, hl, Option.isSome_none, pyAssign] at h
        rw [fillLoop_untouched _ _ _ k hrest h, ← he, lookupV_setKey_self, hw]
    · rw [if_neg he] at hkes
      rcases hv0 : isVdict v0 with _ | _
      · rw [fillLoop_cons_nondict k0 v0 hv0 rest (vdict d)] at h
        simp only [pyContains] at h
        cases hl : lookupV k0 d
        · rw [hl] at h
          simp only [Option.isSome_none, pyAssign] at h
          exact ih _ _ k w hndrest hkes
            (by rw [lookupV_setKey_ne k k0 v0 he d]; exact hkd) h
        · rw [hl] at h
          simp only [Option.isSome_some] at h
          exact ih _ _ k w hndrest hkes hkd h
      · obtain ⟨vs, rfl⟩ := isVdict_true_elim hv0
        rw [fillLoop] at h
        simp only [pyContains] at h
        cases hl : lookupV k0 d
        · rw [hl] at h
          simp only [Option.isSome_none, pyAssign] at h
          exact ih _ _ k w hndrest hkes
            (by rw [lookupV_setKey_ne k k0 _ he d]; exact hkd) h
        next dv0 =>
          rw [hl] at h
          simp only [Option.isSome_some, pyIndex, hl] at h
          rcases hf : fill_missing_resource_params (vdict vs) dv0 with _ | dv2
          · rw [hf] at h
            cases h
          · rw [hf] at h
            simp only [pyAssign] at h
            exact ih _ _ k w hndrest hkes
              (by rw [lookupV_setKey_ne k k0 _ he d]; exact hkd) h

/-- C9: `_fill_missing_resource_params` is non-destructive.  When the fill of
dict `ds` (desired) from dict `es` (existing) completes without raising:
a key the user set to a non-dict value keeps exactly that value; a key
present only in `es` is copied over; a key absent from `es` is left
untouched; and on the spec's examples, `{x:1, y:2}` filled into `{x:99}`
gives `{x:99, y:2}` and the nested `{a:{x:1, y:2}}` into `{a:{x:99}}`
recursively gives `{a:{x:99, y:2}}` rather than overwriting the nested
mapping. -/
theorem C9_backfill_nondestructive :
    (∀ (es ds od : List (String × Value)) (k : String) (dv : Value),
      fill_missing_resource_params (vdict es) (vdict ds) = .ok (vdict od) →
      lookupV k ds = some dv → isVdict dv = false → lookupV k od = some dv) ∧
    (∀ (es ds od : List (String × Value)) (k : String) (w : Value),
      (es.map Prod.fst).Nodup →
      fill_missing_resource_params (vdict es) (vdict ds) = .ok (vdict od) →
      lookupV k es = some w → lookupV k ds = none → lookupV k od = some w) ∧
    (∀ (es ds od : List (String × Value)) (k : String),
      fill_missing_resource_params (vdict es) (vdict ds) = .ok (vdict od) →
      lookupV k es = none → lookupV k od = lookupV k ds) ∧
    fill_missing_resource_params (vdict [("x", vint 1), ("y", vint 2)])
      (vdict [("x", vint 99)]) = .ok (vdict [("x", vint 99), ("y", vint 2)]) ∧
    fill_missing_resource_params
      (vdict [("a", vdict [("x", vint 1), ("y", vint 2)])])
      (vdict [("a", vdict [("x", vint 99)])])
      = .ok (vdict [("a", vdict [("x", vint 99), ("y", vint 2)])]) := by
  refine ⟨?_, ?_, ?_, ?_, ?_⟩
  · intro es ds od k dv h hk hdv
    rw [fill_missing_resource_params.eq_1] at h
    by_cases ht : truthy (vdict es) = false
    · rw [if_pos ht] at h
      cases h
      exact hk
    · rw [if_neg ht] at h
      exact fillLoop_preserves_value es ds od k dv hk hdv h
  · intro es ds od k w hnd h hkes hkds
    rw [fill_missing_resource_params.eq_1] at h
    by_cases ht : truthy (vdict es) = false
    · exfalso
      simp [truthy] at ht
      rw [ht] at hkes
      rw [lookupV] at hkes
      cases hkes
    · rw [if_neg ht] at h
      exact fillLoop_copies es ds od k w hnd hkes hkds h
  · intro es ds od k h hkes
    rw [fill_missing_resource_params.eq_1] at h
    by_cases ht : truthy (vdict es) = false
    · rw [if_pos ht] at h
      cases h
      rfl
    · rw [if_neg ht] at h
      exact fillLoop_untouched es ds od k hkes h
  · simp [fill_missing_resource_params, fillLoop, pyContains, pyAssign,
      pyIndex, lookupV, setKey, truthy]
  · simp [fill_missing_resource_params, fillLoop, pyContains, pyAssign,
      pyIndex, lookupV, setKey, truthy]

/-- Witness for `C9_backfill_nondestructive`: the explicit `x:99` survives
the fill, the missing `y:2` is copied, and an unrelated key stays absent. -/
theorem C9_backfill_nondestructive_witness :
    lookupV "x" [("x", vint 99), ("y", vint 2)] = some (vint 99) ∧
    lookupV "y" [("x", vint 99), ("y", vint 2)] = some (vint 2) ∧
    lookupV "z" [("x", vint 99), ("y", vint 2)] = lookupV "z" [("x", vint 99)] := by
  refine ⟨?_, ?_, ?_⟩
  · exact C9_backfill_nondestructive.1 [("x", vint 1), ("y", vint 2)]
      [("x", vint 99)] [("x", vint 99), ("y", vint 2)] "x" (vint 99)
      C9_backfill_nondestructive.2.2.2.1 (by simp [lookupV]) rfl
  · exact C9_backfill_nondestructive.2.1 [("x", vint 1), ("y", vint 2)]
      [("x", vint 99)] [("x", vint 99), ("y", vint 2)] "y" (vint 2)
      (by simp) C9_backfill_nondestructive.2.2.2.1 (by simp [lookupV])
      (by simp [lookupV])
  · exact C9_backfill_nondestructive.2.2.1 [("x", vint 1), ("y", vint 2)]
      [("x", vint 99)] [("x", vint 99), ("y", vint 2)] "z"
      C9_backfill_nondestructive.2.2.2.1 (by simp [lookupV])

theorem filter_with_spec_none (isBase : Bool) (uid : String)
    (mp : List (String × Value)) (unwanted : List String) (tk : String)
    (hmem : (if isBase then tk else uid ++ "_" ++ tk) ∈ unwanted) :
    ∀ (keys : List String) (params : List (String × Value)),
      lookupV tk params = none →
      lookupV tk (filter_with_spec isBase uid mp unwanted keys params) = none := by
  intro keys
  induction keys with
  | nil =>
    intro params h
    rw [filter_with_spec]
    exact h
  | cons key rest ih =>
    intro params h
    rw [filter_with_spec]
    apply ih
    rcases hl : lookupV (if isBase then key else uid ++ "_" ++ key) mp with _ | v
    · simp only [hl]
      exact h
    · simp only [hl]
      by_cases he : key = tk
      · rw [if_pos (by rw [he]; exact hmem)]
        exact h
      · by_cases hm2 : (if isBase then key else uid ++ "_" ++ key) ∈ unwanted
        · rw [if_pos hm2]
          exact h
        · rw [if_neg hm2]
          by_cases hn : isVnull v = true
          · rw [if_pos hn]
            exact h
          · rw [if_neg hn]
            rw [lookupV_setKey_ne tk key v he params]
            exact h

/-- C3 counterexample: the claim also asserts the `id`/`state`-free invariant
after existing state is back-filled, but `_fill_missing_resource_params`
copies every key of the fetched resource that the user did not set —
including `id`.  Concretely: a base resource configured with
`id=seg1, display_name=web, state=present` extracts
`{display_name: web}` (no `id`), yet back-filling from the fetched
`{id: seg1, display_name: web}` yields `{display_name: web, id: seg1}`,
which contains `id`. -/
theorem C3_counterexample :
    fill_missing_resource_params
        (vdict [("id", vstr "seg1"), ("display_name", vstr "web")])
        (vdict (extract_resource_params true "NSXTSegment"
          [("id", vstr "seg1"), ("display_name", vstr "web"),
           ("state", vstr "present")]
          [] baseArgSpecKeys))
      = .ok (vdict [("display_name", vstr "web"), ("id", vstr "seg1")]) ∧
    lookupV "id" [("display_name", vstr "web"), ("id", vstr "seg1")]
      = some (vstr "seg1") := by
  constructor
  · simp [extract_resource_params, filter_with_spec, baseArgSpecKeys, lookupV,
      setKey, isVnull, fill_missing_resource_params, fillLoop, pyContains,
      pyAssign, truthy]
  · simp [lookupV]

/-- C3 amended: immediately after `_extract_resource_params` the desired
params never contain the `id` or `state` keys (for any module params, spec
keys, prefix and base/sub-resource flag); the invariant is not maintained by
`_fill_missing_resource_params`, which copies any key of the fetched
existing resource that is absent from the desired params — `id` and `state`
included (concrete instance in the second conjunct). -/
theorem C3_no_id_state_after_extraction :
    (∀ (isBase : Bool) (uid : String) (mp : List (String × Value))
      (rk bk : List String),
      lookupV "id" (extract_resource_params isBase uid mp rk bk) = none ∧
      lookupV "state" (extract_resource_params isBase uid mp rk bk) = none) ∧
    lookupV "id"
      [("display_name", vstr "web"), ("id", vstr "seg1")] = some (vstr "seg1") := by
  constructor
  · intro isBase uid mp rk bk
    constructor
    · rw [extract_resource_params]
      cases isBase
      · apply filter_with_spec_none false uid mp _ "id" (by simp)
        apply filter_with_spec_none false uid mp _ "id" (by simp)
        rfl
      · apply filter_with_spec_none true uid mp _ "id" (by simp)
        apply filter_with_spec_none true uid mp _ "id" (by simp)
        rfl
    · rw [extract_resource_params]
      cases isBase
      · apply filter_with_spec_none false uid mp _ "state" (by simp)
        apply filter_with_spec_none false uid mp _ "state" (by simp)
        rfl
      · apply filter_with_spec_none true uid mp _ "state" (by simp)
        apply filter_with_spec_none true uid mp _ "state" (by simp)
        rfl
  · simp [lookupV]

/-- The claim's "value differs" condition for one desired value `v` against
the existing value `ev` found under the same key: a nested mapping differs
when the recursive `check_for_update` reports an update, any other value
(scalars, and ordered sequences with their positional `pyEq` equality)
differs when Python `==` fails.  One explicit case per constructor so each
case has its own unconditional equation. -/
def cfuDiffers (ev : Value) : Value → Prop
  | vdict kvs => check_for_update ev kvs = .ok true
  | vnull => pyEq vnull ev = false
  | vbool b => pyEq (vbool b) ev = false
  | vint n => pyEq (vint n) ev = false
  | vstr s => pyEq (vstr s) ev = false
  | vlist xs => pyEq (vlist xs) ev = false

/-- The claim's per-key update condition: the desired key is absent from the
existing params, or present with a differing value (`cfuDiffers`). -/
def cfuBad (es : List (String × Value)) : String × Value → Prop
  | (k, v) => lookupV k es = none ∨
      ∃ ev, lookupV k es = some ev ∧ cfuDiffers ev v

theorem cfuStep_nondict (rest es : List (String × Value)) (k : String)
    (v ev : Value) (b : Bool)
    (hl : lookupV k es = some ev)
    (hdiff_iff : cfuDiffers ev v ↔ pyEq v ev = false)
    (ih : ∀ b', cfuLoop (vdict es) rest = .ok b' →
      (b' = true ↔ ∃ kv ∈ rest, cfuBad es kv))
    (h : (if pyEq v ev = true then cfuLoop (vdict es) rest else .ok true)
      = Except.ok b) :
    b = true ↔ ∃ kv ∈ ((k, v) :: rest), cfuBad es kv := by
  split at h
  next hpe =>
    rw [ih b h]
    constructor
    · rintro ⟨kv, hmem, hbad⟩
      exact ⟨kv, List.mem_cons_of_mem _ hmem, hbad⟩
    · rintro ⟨kv, hmem, hbad⟩
      rcases List.mem_cons.mp hmem with heq | hmem'
      · exfalso
        rw [heq] at hbad
        rcases hbad with hnone | ⟨ev', hl', hdiff⟩
        · rw [hl] at hnone
          cases hnone
        · rw [hl] at hl'
          have hev : ev' = ev := (Option.some.inj hl').symm
          rw [hev] at hdiff
          rw [hdiff_iff] at hdiff
          rw [hpe] at hdiff
          cases hdiff
      · exact ⟨kv, hmem', hbad⟩
  next hpe =>
    cases h
    constructor
    · intro _
      exact ⟨(k, v), List.mem_cons_self _ _,
        Or.inr ⟨ev, hl, hdiff_iff.mpr (by simpa using hpe)⟩⟩
    · intro _
      rfl

theorem cfuLoop_ok_iff :
    ∀ (rp es : List (String × Value)) (b : Bool),
      cfuLoop (vdict es) rp = .ok b → (b = true ↔ ∃ kv ∈ rp, cfuBad es kv) := by
  intro rp
  induction rp with
  | nil =>
    intro es b h
    rw [cfuLoop] at h
    cases h
    simp
  | cons hd rest ih =>
    obtain ⟨k, v⟩ := hd
    intro es b h
    rw [cfuLoop.eq_2] at h
    simp only [pyContains, pyIndex] at h
    cases hl : lookupV k es
    · rw [hl] at h
      have h' : (Except.ok true : Except Unit Bool) = .ok b := h
      cases h'
      constructor
      · intro _
        exact ⟨(k, v), List.mem_cons_self _ _, Or.inl hl⟩
      · intro _
        rfl
    next ev =>
      rw [hl] at h
      have h2 : (match v with
          | vdict kvs =>
            match check_for_update ev kvs with
            | Except.error e => Except.error e
            | Except.ok true => Except.ok true
            | Except.ok false => cfuLoop (vdict es) rest
          | x => if pyEq v ev = true then cfuLoop (vdict es) rest
                 else Except.ok true) = Except.ok b := h
      clear h
      cases v
      case vnull =>
        exact cfuStep_nondict rest es k vnull ev b hl (by rw [cfuDiffers])
          (fun b' h' => ih es b' h') h2
      case vbool bb =>
        exact cfuStep_nondict rest es k (vbool bb) ev b hl (by rw [cfuDiffers])
          (fun b' h' => ih es b' h') h2
      case vint n =>
        exact cfuStep_nondict rest es k (vint n) ev b hl (by rw [cfuDiffers])
          (fun b' h' => ih es b' h') h2
      case vstr s =>
        exact cfuStep_nondict rest es k (vstr s) ev b hl (by rw [cfuDiffers])
          (fun b' h' => ih es b' h') h2
      case vlist xs =>
        exact cfuStep_nondict rest es k (vlist xs) ev b hl (by rw [cfuDiffers])
          (fun b' h' => ih es b' h') h2
      case vdict kvs =>
        have h' : (match check_for_update ev kvs with
          | Except.error e => Except.error e
          | Except.ok true => Except.ok true
          | Except.ok false => cfuLoop (vdict es) rest) = Except.ok b := h2
        rcases hcr : check_for_update ev kvs with _ | b'
        · rw [hcr] at h'
          cases h'
        · rw [hcr] at h'
          cases b'
          · rw [ih es b h']
            constructor
            · rintro ⟨kv, hmem, hbad⟩
              exact ⟨kv, List.mem_cons_of_mem _ hmem, hbad⟩
            · rintro ⟨kv, hmem, hbad⟩
              rcases List.mem_cons.mp hmem with heq | hmem'
              · exfalso
                rw [heq] at hbad
                rcases hbad with hnone | ⟨ev', hl', hdiff⟩
                · rw [hl] at hnone
                  cases hnone
                · rw [hl] at hl'
                  have hev : ev' = ev := (Option.some.inj hl').symm
                  rw [hev] at hdiff
                  have hdiff' : check_for_update ev kvs = .ok true := hdiff
                  rw [hcr] at hdiff'
                  cases hdiff'
              · exact ⟨kv, hmem', hbad⟩
          · cases h'
            constructor
            · intro _
              exact ⟨(k, vdict kvs), List.mem_cons_self _ _,
                Or.inr ⟨ev, hl, hcr⟩⟩
            · intro _
              rfl

/-- C4: `check_for_update` returns `False` whenever the existing params are
absent or empty (falsy); otherwise, for dict-shaped existing params and any
run that returns without raising, it returns `True` exactly when some
desired entry is missing from the existing params or carries a differing
value — recursively for nested mappings, by Python `==` (positional for
ordered sequences) otherwise; keys present only in the existing params can
never make it `True`, since the condition ranges over the desired entries
only.  The embedding is a pure function, mirroring the method's lack of
side effects.  The last conjunct checks the spec's order-sensitivity
example: equal tag sets in different orders report an update. -/
theorem C4_needs_update :
    (∀ (existing : Value) (rp : List (String × Value)),
      truthy existing = false → check_for_update existing rp = .ok false) ∧
    (∀ (es rp : List (String × Value)) (b : Bool), es ≠ [] →
      check_for_update (vdict es) rp = .ok b →
      (b = true ↔ ∃ kv ∈ rp, cfuBad es kv)) ∧
    check_for_update
      (vdict [("tags", vlist [vdict [("scope", vstr "s"), ("tag", vstr "a")],
                              vdict [("scope", vstr "s"), ("tag", vstr "b")]])])
      [("tags", vlist [vdict [("scope", vstr "s"), ("tag", vstr "b")],
                       vdict [("scope", vstr "s"), ("tag", vstr "a")]])]
      = .ok true := by
  refine ⟨?_, ?_, ?_⟩
  · intro existing rp h
    rw [check_for_update, if_pos h]
  · intro es rp b hne h
    rw [check_for_update] at h
    rw [if_neg (by simpa [truthy, List.isEmpty_iff] using hne)] at h
    exact cfuLoop_ok_iff rp es b h
  · simp [check_for_update, cfuLoop, pyContains, pyIndex, lookupV, truthy,
      pyEq, pyEqList, pyEqEntries]

/-- Witness for `C4_needs_update`: `None` existing params give `False`; a
desired key missing from a non-empty existing dict gives `True`. -/
theorem C4_needs_update_witness :
    check_for_update vnull [("a", vint 1)] = .ok false ∧
    ((true : Bool) = true ↔
      ∃ kv ∈ [("b", vint 2)], cfuBad [("a", vint 1)] kv) :=
  ⟨C4_needs_update.1 vnull [("a", vint 1)] rfl,
   C4_needs_update.2.1 [("a", vint 1)] [("b", vint 2)] true (by simp)
     (by simp [check_for_update, cfuLoop, pyContains, lookupV, truthy])⟩

mutual

theorem realizeThread_shared (n : RNode) (slot : CheckModeSlot) (σ : LogStore) :
    (realizeThread n slot .shared σ).callerLog = σ.callerLog := by
  rw [realizeThread, achieveStateThread,
    subresourceLoop_shared n.children .shared (appendEntry σ .shared ⟨n.id⟩)]
  rfl
termination_by (sizeOf n, 1)
decreasing_by
  apply Prod.Lex.left
  cases n
  simp
  try omega

theorem subresourceLoop_shared (cs : List RNode) (log : LogRef) (σ : LogStore) :
    (subresourceLoop cs log σ).callerLog = σ.callerLog := by
  match cs with
  | [] => rw [subresourceLoop]
  | c :: rest =>
    rw [subresourceLoop,
      subresourceLoop_shared rest log (realizeThread c (.logObject log) .shared σ),
      realizeThread_shared c (.logObject log) σ]
termination_by (sizeOf cs, 2)
decreasing_by
  · apply Prod.Lex.left
    simp
    try omega
  · apply Prod.Lex.left
    simp
    try omega

end

theorem realizeThread_caller (n : RNode) (slot : CheckModeSlot) (σ : LogStore) :
    (realizeThread n slot .caller σ).callerLog = σ.callerLog ++ [⟨n.id⟩] := by
  rw [realizeThread, achieveStateThread,
    subresourceLoop_shared n.children .caller (appendEntry σ .caller ⟨n.id⟩)]
  rfl

/-- C1 (code defect): the result log is NOT threaded by reference through the
recursive traversal.  `achieve_subresource_state` passes
`successful_resource_exec_logs` to `sub_resource.realize` positionally
(line 137), where it binds `supports_check_mode` (line 23); the child's log
parameter falls back to its default — the module-level shared list.  So a
run handed an explicitly constructed fresh list returns only the root's own
record: on the two-node tree `seg1 → p1`, `p1`'s record lands in the shared
default list and the returned caller log is `[seg1]`; in general the caller
log gains exactly the root's record, never any descendant's. -/
theorem C1_result_log_threading :
    realizeRun ⟨"seg1", [⟨"p1", []⟩]⟩ ⟨[], []⟩
      = ⟨[⟨"seg1"⟩], [⟨"p1"⟩]⟩ ∧
    (∀ (root : RNode) (σ : LogStore),
      (realizeRun root σ).callerLog = σ.callerLog ++ [⟨root.id⟩]) := by
  constructor
  · simp [realizeRun, realizeThread, achieveStateThread, subresourceLoop,
      appendEntry]
  · intro root σ
    rw [realizeRun]
    exact realizeThread_caller root .defaultTrue σ

/-- C2 (code defect): in dry-run mode no API call is ever issued (last two
conjuncts: for every input with `check_mode` true, both achieve methods
issue no calls), and the create and delete branches do append their
hypothetical records (second and third conjuncts) — but in the
update-needed branch the code crashes instead of logging: with an existing
resource `{a:1, _revision:3}` and desired `{a:2}` (update needed), check
mode hits the undefined name `successfully_updated_resources` (line 424)
and raises `NameError`, appending nothing (first conjunct). -/
theorem C2_dry_run_purity :
    achieve_present_state true
      (some (vdict [("a", vint 1), ("_revision", vint 3)]))
      [("a", vint 2)] "seg1" "NSXTSegment" false true (.ok (vdict []))
      = ⟨[], [], .raised⟩ ∧
    achieve_present_state true none [("a", vint 2)] "seg1" "NSXTSegment"
      false true (.ok (vdict []))
      = ⟨[.checkCreate "seg1" [("a", vint 2)] "NSXTSegment"], [], .ret⟩ ∧
    achieve_absent_state true (some (vdict [("a", vint 1)])) [("a", vint 2)]
      "seg1" "NSXTSegment" (.ok ()) false
      = ⟨[.checkDelete "seg1" [("a", vint 2)] "NSXTSegment"], [], .ret⟩ ∧
    (∀ (existing : Option Value) (rp : List (String × Value))
      (rid rtype : String) (dW wOk : Bool) (pR : Except Unit Value),
      (achieve_present_state true existing rp rid rtype dW wOk pR).calls = []) ∧
    (∀ (existing : Option Value) (rp : List (String × Value))
      (rid rtype : String) (dR : Except Unit Unit) (dup : Bool),
      (achieve_absent_state true existing rp rid rtype dR dup).calls = []) := by
  refine ⟨?_, ?_, ?_, ?_, ?_⟩
  · simp [achieve_present_state, check_for_update, cfuLoop, pyContains,
      pyIndex, lookupV, truthy, pyEq]
  · simp [achieve_present_state, check_for_update, truthy]
  · simp [achieve_absent_state]
  · intro existing rp rid rtype dW wOk pR
    rw [achieve_present_state.eq_def]
    rcases hc : check_for_update
        (match existing with | some e => e | none => vnull) rp with _ | b
    · rfl
    · cases b
      · simp
      · simp
  · intro existing rp rid rtype dR dup
    cases existing <;> simp [achieve_absent_state]
